import Mathlib

/-!
Verification of the tiny-printer rendering-and-framing pipeline
(`mcp_tiny_print/printer.py`).

We give a shallow embedding of the two core components:

* the Command Encoder (`TinyPrinter.print_bitmap`): width normalization,
  row-major MSB-first bit packing, and the ESC/POS `GS v 0` command framing;
* the Rasterizer front-ends: the text-desymbolizing substitutions of
  `markdown_to_bitmap`, the line splitting / trimming / font-size binary
  search of `text_to_bitmap`, and the bounding-box crop + polarity
  inversion tail of `markdown_to_bitmap`.

Images in mode "1" are modelled as a width together with a list of rows of
`Bool`; `true` is the sample value 255 (white before inversion), which is
exactly the value that `Image.tobytes` packs as bit 1, and the value used
by `Image.new(.., "white")`.  Font rendering itself is an external
collaborator (PIL); where a claim depends on measured text widths the
measurement is an explicit function parameter.
-/

set_option maxRecDepth 4000

namespace TinyPrint

/-- `PRINT_WIDTH` from printer.py: pixel width of the thermal printer. -/
def PRINT_WIDTH : Nat := 384

/-- A mode-"1" PIL image: a nominal pixel width and the pixel rows,
`true` = sample value 255.  A real PIL image has every row of length
`width`; theorems that need this state it as a hypothesis. -/
structure Img where
  width : Nat
  rows : List (List Bool)

/-- Height of an image, `img.size[1]` in PIL. -/
def Img.height (img : Img) : Nat := img.rows.length

/-- Pixel lookup with the white (`true`) background as default. -/
def pixelAt (img : Img) (x y : Nat) : Bool :=
  ((img.rows.getD y []).getD x true)

/-- Split a row of pixels into groups of 8, most significant first, as
`Image.tobytes` does row by row (the final group may be short when the
width is not a multiple of 8). -/
def chunksOf8 : List Bool → List (List Bool)
  | [] => []
  | b0 :: b1 :: b2 :: b3 :: b4 :: b5 :: b6 :: b7 :: rest =>
      [b0, b1, b2, b3, b4, b5, b6, b7] :: chunksOf8 rest
  | l => [l]

/-- One packed byte from at most 8 pixels, MSB first; a short final group
is padded with low zero bits, as `Image.tobytes` pads each row. -/
def byteOfBits (bits : List Bool) : Nat :=
  (bits.foldl (fun a b => 2 * a + cond b 1 0) 0) * 2 ^ (8 - bits.length)

/-- One row of `img.tobytes()`: the row's pixels packed 8 per byte. -/
def packRow (row : List Bool) : List Nat :=
  (chunksOf8 row).map byteOfBits

/-- `img.tobytes()` for a mode-"1" image: rows packed in order. -/
def imgBytes (img : Img) : List Nat :=
  (img.rows.map packRow).flatten

/-- Width normalization of `print_bitmap` (printer.py lines 184–195):
a narrower image is pasted horizontally centered onto a white canvas of
width `PRINT_WIDTH`; a wider one is cropped to columns `0..PRINT_WIDTH`. -/
def normalizeImg (img : Img) : Img :=
  if img.width = PRINT_WIDTH then img
  else if img.width < PRINT_WIDTH then
    { width := PRINT_WIDTH,
      rows := img.rows.map (fun row =>
        List.replicate ((PRINT_WIDTH - img.width) / 2) true ++ row ++
          List.replicate (PRINT_WIDTH - ((PRINT_WIDTH - img.width) / 2 + img.width)) true) }
  else
    { width := PRINT_WIDTH, rows := img.rows.map (fun row => row.take PRINT_WIDTH) }

/-- The full ESC/POS command built by `print_bitmap` (printer.py lines
203–211): `1B 40`, `1D 76 30 00`, `xL xH` from `width_bytes = width // 8`,
`yL yH` from the pre-normalization height (`&0xFF` and `>>8 &0xFF`), the
packed bitmap of the normalized image, then three `0A` feed bytes. -/
def printBitmapCommand (img : Img) : List Nat :=
  let height := img.rows.length
  let nimg := normalizeImg img
  let widthBytes := nimg.width / 8
  [0x1b, 0x40] ++ [0x1d, 0x76, 0x30, 0x00] ++
    [widthBytes % 256, widthBytes / 256 % 256, height % 256, height / 256 % 256] ++
    imgBytes nimg ++ [0x0a, 0x0a, 0x0a]

/-- A 384-wide all-white image of height 70000, taller than the 16-bit
height field can represent. -/
def tallImage : Img := ⟨384, List.replicate 70000 (List.replicate 384 false)⟩

/-- What C7 asserts of the width-normalization step: a narrower image is
centered at offset `(PRINT_WIDTH - width) / 2` on an otherwise white
width-384 canvas; a wider image is cropped to columns `0..383`, so only
pixels with `x < 384` reach the packed payload. -/
def NormalizationSpec (img : Img) : Prop :=
  (img.width < PRINT_WIDTH →
    (normalizeImg img).width = PRINT_WIDTH ∧
    (normalizeImg img).rows.length = img.rows.length ∧
    (∀ r ∈ (normalizeImg img).rows, r.length = PRINT_WIDTH) ∧
    ∀ y, y < img.rows.length → ∀ x, x < PRINT_WIDTH →
      pixelAt (normalizeImg img) x y =
        if (PRINT_WIDTH - img.width) / 2 ≤ x ∧
            x < (PRINT_WIDTH - img.width) / 2 + img.width then
          pixelAt img (x - (PRINT_WIDTH - img.width) / 2) y
        else true) ∧
  (PRINT_WIDTH < img.width →
    (normalizeImg img).width = PRINT_WIDTH ∧
    (normalizeImg img).rows.length = img.rows.length ∧
    (∀ r ∈ (normalizeImg img).rows, r.length = PRINT_WIDTH) ∧
    ∀ y, y < img.rows.length → ∀ x, x < PRINT_WIDTH →
      pixelAt (normalizeImg img) x y = pixelAt img x y)

/-- The documented bit order read back: one byte yields 8 pixels, most
significant bit first. -/
def byteToBits (b : Nat) : List Bool :=
  [b / 128 % 2 == 1, b / 64 % 2 == 1, b / 32 % 2 == 1, b / 16 % 2 == 1,
    b / 8 % 2 == 1, b / 4 % 2 == 1, b / 2 % 2 == 1, b % 2 == 1]

/-- Unpack a row's worth of payload bytes with the documented bit order. -/
def unpackRow (bytes : List Nat) : List Bool :=
  (bytes.map byteToBits).flatten

/-- Unpack a 384-wide payload: 48 bytes per row, rows in order. -/
def unpackRows : List Nat → List (List Bool)
  | [] => []
  | b :: rest => unpackRow ((b :: rest).take 48) :: unpackRows ((b :: rest).drop 48)
termination_by l => l.length
decreasing_by
  simp only [List.length_drop, List.length_cons]
  omega

/-- Python `str.replace` for a one-character pattern `a` and replacement
`r`: every occurrence replaced, left to right. -/
def replace1 (a : Char) (r : List Char) : List Char → List Char
  | [] => []
  | c :: rest => if c = a then r ++ replace1 a r rest else c :: replace1 a r rest

/-- Python `str.replace` for a two-character pattern `a b`: leftmost
non-overlapping occurrences replaced by `r`. -/
def replace2 (a b : Char) (r : List Char) : List Char → List Char
  | [] => []
  | [c] => [c]
  | c :: d :: rest =>
      if c = a ∧ d = b then r ++ replace2 a b r rest
      else c :: replace2 a b r (d :: rest)

/-- The desymbolizing chain of `markdown_to_bitmap` (printer.py lines
57–63): literal `\n` escape → newline, the two checkbox glyphs → bullet
plus space, then `#` and `*` removed. -/
def desymbolize (s : List Char) : List Char :=
  replace1 '*' []
    (replace1 '#' []
      (replace1 '☐' ['•', ' ']
        (replace1 '□' ['•', ' ']
          (replace2 '\\' 'n' ['\n'] s))))

/-- Python `text.split("\n")`. -/
def splitLines : List Char → List (List Char)
  | [] => [[]]
  | c :: rest =>
      if c = '\n' then [] :: splitLines rest
      else
        match splitLines rest with
        | [] => [[c]]
        | l :: ls => (c :: l) :: ls

/-- The whitespace stripped by Python `str.strip` (the ASCII cases). -/
def isPySpace (c : Char) : Bool :=
  c = ' ' || c = '\t' || c = '\n' || c = '\r' || c = '\x0b' || c = '\x0c'

/-- Python `line.strip()`. -/
def pyStrip (l : List Char) : List Char :=
  ((l.dropWhile isPySpace).reverse.dropWhile isPySpace).reverse

/-- Lines 91–92 of printer.py: split the raw text on newlines, strip each
line, drop empty lines.  Note `text_to_bitmap` applies no desymbolizing. -/
def textLines (s : List Char) : List (List Char) :=
  ((splitLines s).map pyStrip).filter (fun l => !l.isEmpty)

/-- Python `max(lines, key=len)`: the first line of maximal length, or
`none` (a raised `ValueError`) when the list is empty. -/
def maxByLen (ls : List (List Char)) : Option (List Char) :=
  match ls with
  | [] => none
  | l :: rest =>
      some (rest.foldl (fun acc x => if x.length > acc.length then x else acc) l)

/-- The error surfaced when no renderable line remains (the spec's
`EmptyInputError`; concretely the `ValueError` that `max` raises on an
empty sequence in printer.py line 95). -/
inductive RenderError where
  | emptyInputError
deriving DecidableEq

/-- The font-fitting binary-search loop of `text_to_bitmap` (printer.py
lines 102–130), parametrized by the measured rendered width `w` of the
fitting anchor at each candidate size.  `best` starts at 16
(`best_font_size = 16`, line 100); a fitting `mid` is recorded and the
search moves up, otherwise it moves down. -/
def fitLoop (w : Int → Nat) (lo hi best : Int) : Int :=
  if lo ≤ hi then
    if w ((lo + hi) / 2) ≤ PRINT_WIDTH - 20 then
      fitLoop w ((lo + hi) / 2 + 1) hi ((lo + hi) / 2)
    else fitLoop w lo ((lo + hi) / 2 - 1) best
  else best
termination_by (hi + 1 - lo).toNat
decreasing_by
  · omega
  · omega

/-- The chosen font size: `fitLoop` on the range `[8, 200]` with initial
best 16 (printer.py lines 98–100). -/
def bestFontSizeFor (w : Int → Nat) : Int := fitLoop w 8 200 16

/-- The front of `text_to_bitmap` (printer.py lines 88–130): line
splitting, the longest-line anchor, and the chosen font size; fails when
no non-empty line remains. -/
def textToBitmapFontSize (measureW : List Char → Int → Nat) (text : List Char) :
    Except RenderError Int :=
  match maxByLen (textLines text) with
  | none => Except.error RenderError.emptyInputError
  | some longest => Except.ok (bestFontSizeFor (measureW longest))

/-- Polarity inversion, `img.point(lambda x: 255 - x)` on mode "1". -/
def invertImg (img : Img) : Img :=
  { width := img.width, rows := img.rows.map (List.map (fun b => !b)) }

/-- Coordinates of all nonzero (sample 255, `true`) pixels. -/
def truePositions (img : Img) : List (Nat × Nat) :=
  (img.rows.enum.map (fun p =>
    p.2.enum.filterMap (fun q => if q.2 then some (q.1, p.1) else none))).flatten

/-- PIL `Image.getbbox`: the bounding box `(left, upper, right, lower)`
(right/lower exclusive) of the nonzero regions, `none` if the image is
all zero. -/
def getbbox (img : Img) : Option (Nat × Nat × Nat × Nat) :=
  match truePositions img with
  | [] => none
  | (x, y) :: ps =>
      some (ps.foldl (fun a q => Nat.min a q.1) x,
        ps.foldl (fun a q => Nat.min a q.2) y,
        ps.foldl (fun a q => Nat.max a q.1) x + 1,
        ps.foldl (fun a q => Nat.max a q.2) y + 1)

/-- PIL `Image.crop` with box `(left, upper, right, lower)`. -/
def cropBox (img : Img) (box : Nat × Nat × Nat × Nat) : Img :=
  { width := box.2.2.1 - box.1,
    rows := ((img.rows.drop box.2.1).take (box.2.2.2 - box.2.1)).map
      (fun row => (row.drop box.1).take (box.2.2.1 - box.1)) }

/-- The tail of `markdown_to_bitmap` (printer.py lines 75–86) applied to
the canvas that the font renderer drew (already converted to mode "1"):
`getbbox`, conditional crop, then polarity inversion — in the order the
code performs them. -/
def markdownPostProcess (img : Img) : Img :=
  invertImg (match getbbox img with
    | none => img
    | some box => cropBox img box)

/-- Modelled from the spec: the "tight bounding box of non-background
content".  Content is the drawn (black, sample 0) text on the white
canvas prior to inversion, so its bounding box is `getbbox` of the
inverted image. -/
def contentBBox (img : Img) : Option (Nat × Nat × Nat × Nat) :=
  getbbox (invertImg img)

/-- A stand-in for a drawn canvas: 4×4, white background, one black
content pixel at (1, 1).  Every canvas `markdown_to_bitmap` ever draws
(384×2000, text within the margins) has white corners in the same way. -/
def drawn4 : Img :=
  ⟨4, [[true, true, true, true], [true, false, true, true],
       [true, true, true, true], [true, true, true, true]]⟩

lemma normalizeImg_width (img : Img) : (normalizeImg img).width = PRINT_WIDTH := by
  unfold normalizeImg
  split
  · assumption
  · split <;> rfl

lemma normalizeImg_height (img : Img) :
    (normalizeImg img).rows.length = img.rows.length := by
  unfold normalizeImg
  split
  · rfl
  · split <;> simp

lemma normalizeImg_of_width_eq (img : Img) (h : img.width = PRINT_WIDTH) :
    normalizeImg img = img := by
  unfold normalizeImg
  simp [h]

/-- Every list of length `8 * k + 8` starts with eight explicit elements. -/
lemma exists_cons8 {α : Type} (l : List α) {k : Nat} (h : l.length = 8 * k + 8) :
    ∃ a b c d e f g h8 rest, l = a :: b :: c :: d :: e :: f :: g :: h8 :: rest ∧
      rest.length = 8 * k := by
  match l with
  | a :: b :: c :: d :: e :: f :: g :: h8 :: rest =>
    refine ⟨a, b, c, d, e, f, g, h8, rest, rfl, ?_⟩
    simp at h
    omega
  | [] | [_] | [_, _] | [_, _, _] | [_, _, _, _] | [_, _, _, _, _]
  | [_, _, _, _, _, _] | [_, _, _, _, _, _, _] =>
    simp at h

lemma chunksOf8_cons8 (a b c d e f g h8 : Bool) (rest : List Bool) :
    chunksOf8 (a :: b :: c :: d :: e :: f :: g :: h8 :: rest) =
      [a, b, c, d, e, f, g, h8] :: chunksOf8 rest := rfl

lemma chunksOf8_length {k : Nat} : ∀ l : List Bool, l.length = 8 * k →
    (chunksOf8 l).length = k := by
  induction k with
  | zero =>
    intro l hl
    have : l = [] := List.length_eq_zero.mp (by omega)
    subst this
    rfl
  | succ k ih =>
    intro l hl
    obtain ⟨a, b, c, d, e, f, g, h8, rest, rfl, hrest⟩ :=
      exists_cons8 l (k := k) (by omega)
    rw [chunksOf8_cons8, List.length_cons, ih rest hrest]

lemma packRow_length {k : Nat} (row : List Bool) (h : row.length = 8 * k) :
    (packRow row).length = k := by
  rw [packRow, List.length_map, chunksOf8_length row h]

lemma packedRows_length : ∀ rows : List (List Bool),
    (∀ r ∈ rows, r.length = PRINT_WIDTH) →
    ((rows.map packRow).flatten).length = 48 * rows.length := by
  intro rows
  induction rows with
  | nil => simp
  | cons r rest ih =>
    intro h
    have hr : r.length = 8 * 48 := by
      have := h r (by simp)
      simpa [PRINT_WIDTH] using this
    simp only [List.map_cons, List.flatten_cons, List.length_append, List.length_cons]
    rw [packRow_length r hr, ih (fun r hr => h r (by simp [hr]))]
    ring

lemma imgBytes_length (img : Img) (h : ∀ r ∈ img.rows, r.length = PRINT_WIDTH) :
    (imgBytes img).length = 48 * img.rows.length :=
  packedRows_length img.rows h

lemma printBitmapCommand_headerPrefix (img : Img) (h1 : img.width = PRINT_WIDTH) :
    printBitmapCommand img =
      [0x1b, 0x40, 0x1d, 0x76, 0x30, 0x00, 48, 0,
        img.rows.length % 256, img.rows.length / 256 % 256] ++
      (imgBytes img ++ [0x0a, 0x0a, 0x0a]) := by
  unfold printBitmapCommand
  rw [normalizeImg_of_width_eq img h1]
  simp [h1, PRINT_WIDTH]

/-- Length of the whole command for an already-width-384 image:
2 reset + 4 opcode + 4 header + 48 per row + 3 feed bytes. -/
lemma printBitmapCommand_length (img : Img) (h1 : img.width = PRINT_WIDTH)
    (h2 : ∀ r ∈ img.rows, r.length = PRINT_WIDTH) :
    (printBitmapCommand img).length = 13 + 48 * img.rows.length := by
  unfold printBitmapCommand
  rw [normalizeImg_of_width_eq img h1]
  simp [imgBytes_length img h2]
  ring

/-- C1: `print_bitmap` performs no height check at all.  For the 384×70000
image the command's ten header bytes carry `yL = 0x70`, `yH = 0x11` — the
height truncated to `70000 mod 65536 = 4464` — and the full packed payload
(48 bytes per row) is still emitted, contradicting the claim that
`HeightOverflowError` is raised and no payload emitted. -/
theorem c1_height_silently_truncated :
    (printBitmapCommand tallImage).take 10 =
      [0x1b, 0x40, 0x1d, 0x76, 0x30, 0x00, 48, 0, 0x70, 0x11] ∧
    (printBitmapCommand tallImage).length = 13 + 48 * 70000 := by
  have hlen : tallImage.rows.length = 70000 := by
    rw [show tallImage.rows = List.replicate 70000 (List.replicate 384 false) from rfl,
      List.length_replicate]
  constructor
  · rw [printBitmapCommand_headerPrefix tallImage rfl]
    rw [show (10 : Nat) =
      ([0x1b, 0x40, 0x1d, 0x76, 0x30, 0x00, 48, 0,
        tallImage.rows.length % 256, tallImage.rows.length / 256 % 256] : List Nat).length from rfl]
    rw [List.take_left, hlen]
  · rw [printBitmapCommand_length tallImage rfl ?_, hlen]
    intro r hr
    rw [List.eq_of_mem_replicate hr, List.length_replicate, PRINT_WIDTH]

/-- C4: for a width-384 image of representable height, the command is
exactly reset `1B 40`, opcode `1D 76 30 00`, `xL xH = 48, 0`,
`yL yH` = height little-endian, the packed bitmap, then `0A 0A 0A`. -/
theorem c4_command_layout (img : Img) (h1 : img.width = PRINT_WIDTH)
    (h2 : img.rows.length < 65536) :
    printBitmapCommand img =
      [0x1b, 0x40] ++ [0x1d, 0x76, 0x30, 0x00] ++
        [48, 0, img.rows.length % 256, img.rows.length / 256] ++
        imgBytes img ++ [0x0a, 0x0a, 0x0a] := by
  rw [printBitmapCommand_headerPrefix img h1,
    Nat.mod_eq_of_lt (show img.rows.length / 256 < 256 by omega)]
  simp

/-- C4 witness: the spec's 384×300 example, `xL xH = 30 00`,
`yL yH = 2C 01`. -/
theorem c4_command_layout_witness :
    (⟨384, List.replicate 300 (List.replicate 384 true)⟩ : Img).width = PRINT_WIDTH ∧
    (⟨384, List.replicate 300 (List.replicate 384 true)⟩ : Img).rows.length < 65536 ∧
    printBitmapCommand ⟨384, List.replicate 300 (List.replicate 384 true)⟩ =
      [0x1b, 0x40] ++ [0x1d, 0x76, 0x30, 0x00] ++ [0x30, 0x00, 0x2c, 0x01] ++
        imgBytes ⟨384, List.replicate 300 (List.replicate 384 true)⟩ ++
        [0x0a, 0x0a, 0x0a] := by
  have hlen : (⟨384, List.replicate 300 (List.replicate 384 true)⟩ : Img).rows.length = 300 := by
    rw [show (⟨384, List.replicate 300 (List.replicate 384 true)⟩ : Img).rows =
      List.replicate 300 (List.replicate 384 true) from rfl, List.length_replicate]
  refine ⟨rfl, by rw [hlen]; omega, ?_⟩
  have h := c4_command_layout ⟨384, List.replicate 300 (List.replicate 384 true)⟩
    rfl (by rw [hlen]; omega)
  rw [h, hlen]

/-- C9: a width-384 image of height `h` encodes to exactly `13 + 48 * h`
bytes: 2 reset + 4 opcode + 4 header + 48 payload bytes per row + 3 feed. -/
theorem c9_command_length (img : Img) (h1 : img.width = PRINT_WIDTH)
    (h2 : ∀ r ∈ img.rows, r.length = PRINT_WIDTH) :
    (printBitmapCommand img).length = 13 + 48 * img.rows.length :=
  printBitmapCommand_length img h1 h2

/-- C9 witness: a 384×2 image encodes to 109 bytes. -/
theorem c9_command_length_witness :
    (⟨384, [List.replicate 384 false, List.replicate 384 true]⟩ : Img).width = PRINT_WIDTH ∧
    (∀ r ∈ (⟨384, [List.replicate 384 false, List.replicate 384 true]⟩ : Img).rows,
      r.length = PRINT_WIDTH) ∧
    (printBitmapCommand ⟨384, [List.replicate 384 false, List.replicate 384 true]⟩).length =
      13 + 48 * 2 := by
  refine ⟨rfl, by decide, ?_⟩
  have h := c9_command_length ⟨384, [List.replicate 384 false, List.replicate 384 true]⟩
    rfl (by decide)
  simpa using h

lemma normalizeImg_of_lt (img : Img) (h : img.width < PRINT_WIDTH) :
    normalizeImg img =
      { width := PRINT_WIDTH,
        rows := img.rows.map (fun row =>
          List.replicate ((PRINT_WIDTH - img.width) / 2) true ++ row ++
            List.replicate (PRINT_WIDTH - ((PRINT_WIDTH - img.width) / 2 + img.width)) true) } := by
  unfold normalizeImg
  rw [if_neg (by omega), if_pos h]

lemma normalizeImg_of_gt (img : Img) (h : PRINT_WIDTH < img.width) :
    normalizeImg img =
      { width := PRINT_WIDTH, rows := img.rows.map (fun row => row.take PRINT_WIDTH) } := by
  unfold normalizeImg
  rw [if_neg (by omega), if_neg (by omega)]

lemma getD_map_of_lt {α β : Type} (f : α → β) (l : List α) (y : Nat)
    (hy : y < l.length) (d : β) (d' : α) :
    (l.map f).getD y d = f (l.getD y d') := by
  rw [List.getD_eq_getElem?_getD, List.getD_eq_getElem?_getD, List.getElem?_map,
    List.getElem?_eq_getElem hy]
  rfl

lemma getD_mem_of_lt {α : Type} (l : List α) (y : Nat) (hy : y < l.length) (d : α) :
    l.getD y d ∈ l := by
  rw [List.getD_eq_getElem?_getD, List.getElem?_eq_getElem hy]
  exact List.getElem_mem hy

/-- `getD` with white default on a row padded left and right with white:
inside the pasted region it reads the pasted row, everywhere else white. -/
lemma getD_padded (off k x : Nat) (r : List Bool) :
    (List.replicate off true ++ r ++ List.replicate k true).getD x true =
      if off ≤ x ∧ x < off + r.length then r.getD (x - off) true else true := by
  rw [List.append_assoc, List.getD_eq_getElem?_getD, List.getElem?_append]
  simp only [List.length_replicate]
  by_cases h1 : x < off
  · rw [if_pos h1, List.getElem?_replicate, if_pos h1, if_neg (by omega)]
    rfl
  · rw [if_neg h1, List.getElem?_append]
    by_cases h2 : x - off < r.length
    · rw [if_pos h2, if_pos (by omega), List.getD_eq_getElem?_getD]
    · rw [if_neg h2, if_neg (show ¬(off ≤ x ∧ x < off + r.length) by omega),
        List.getElem?_replicate]
      split <;> rfl

/-- C7: `print_bitmap`'s width normalization pastes a narrower image
horizontally centered on a white `PRINT_WIDTH` canvas and crops a wider
image to columns `0..383`. -/
theorem c7_width_normalization (img : Img)
    (hwf : ∀ r ∈ img.rows, r.length = img.width) : NormalizationSpec img := by
  have hoffle : (PRINT_WIDTH - img.width) / 2 ≤ PRINT_WIDTH - img.width :=
    Nat.div_le_self _ _
  constructor
  · intro hlt
    rw [normalizeImg_of_lt img hlt]
    refine ⟨rfl, by simp, ?_, ?_⟩
    · intro r hr
      simp only [List.mem_map] at hr
      obtain ⟨r0, hr0, rfl⟩ := hr
      have := hwf r0 hr0
      simp only [List.length_append, List.length_replicate, this]
      omega
    · intro y hy x _
      unfold pixelAt
      rw [getD_map_of_lt _ img.rows y hy [] []]
      have hmem := getD_mem_of_lt img.rows y hy []
      have hlen := hwf _ hmem
      rw [getD_padded, hlen]
  · intro hgt
    rw [normalizeImg_of_gt img hgt]
    refine ⟨rfl, by simp, ?_, ?_⟩
    · intro r hr
      simp only [List.mem_map] at hr
      obtain ⟨r0, hr0, rfl⟩ := hr
      have := hwf r0 hr0
      simp only [List.length_take, this]
      omega
    · intro y hy x hx
      unfold pixelAt
      rw [getD_map_of_lt _ img.rows y hy [] []]
      show ((img.rows.getD y []).take PRINT_WIDTH).getD x true =
        (img.rows.getD y []).getD x true
      rw [List.getD_eq_getElem?_getD, List.getD_eq_getElem?_getD,
        List.getElem?_take, if_pos hx, List.getD_eq_getElem?_getD]

/-- C7 witness: a 2-wide one-row image, normalized; offset is 191. -/
theorem c7_width_normalization_witness :
    (∀ r ∈ (⟨2, [[false, true]]⟩ : Img).rows, r.length = (⟨2, [[false, true]]⟩ : Img).width) ∧
    NormalizationSpec ⟨2, [[false, true]]⟩ :=
  ⟨by decide, c7_width_normalization ⟨2, [[false, true]]⟩ (by decide)⟩

lemma byteToBits_byteOfBits : ∀ a b c d e f g h : Bool,
    byteToBits (byteOfBits [a, b, c, d, e, f, g, h]) = [a, b, c, d, e, f, g, h] := by
  decide

lemma unpackRow_packRow {k : Nat} : ∀ row : List Bool, row.length = 8 * k →
    unpackRow (packRow row) = row := by
  induction k with
  | zero =>
    intro row hrow
    have : row = [] := List.length_eq_zero.mp (by omega)
    subst this
    rfl
  | succ k ih =>
    intro row hrow
    obtain ⟨a, b, c, d, e, f, g, h8, rest, rfl, hrest⟩ :=
      exists_cons8 row (k := k) (by omega)
    show unpackRow (packRow _) = _
    rw [packRow, chunksOf8_cons8, List.map_cons]
    show unpackRow (byteOfBits [a, b, c, d, e, f, g, h8] :: packRow rest) = _
    rw [unpackRow, List.map_cons, List.flatten_cons, byteToBits_byteOfBits]
    have := ih rest hrest
    rw [unpackRow] at this
    rw [this]
    rfl

lemma unpackRows_cons_of_ne (l : List Nat) (h : l ≠ []) :
    unpackRows l = unpackRow (l.take 48) :: unpackRows (l.drop 48) := by
  cases l with
  | nil => exact absurd rfl h
  | cons b rest => rw [unpackRows]

lemma unpackRows_packedRows : ∀ rows : List (List Bool),
    (∀ r ∈ rows, r.length = PRINT_WIDTH) →
    unpackRows ((rows.map packRow).flatten) = rows := by
  intro rows
  induction rows with
  | nil =>
    intro _
    simp only [List.map_nil, List.flatten_nil]
    rw [unpackRows]
  | cons r rest ih =>
    intro h
    have hr : r.length = 8 * 48 := by
      have := h r (by simp)
      simpa [PRINT_WIDTH] using this
    have hpack : (packRow r).length = 48 := packRow_length r hr
    simp only [List.map_cons, List.flatten_cons]
    rw [unpackRows_cons_of_ne _ (by
      intro hcontra
      have := congrArg List.length hcontra
      simp [hpack] at this)]
    rw [List.take_left' hpack, List.drop_left' hpack, unpackRow_packRow r hr,
      ih (fun r hr => h r (by simp [hr]))]

/-- C8: packing a 384-wide image row-major, 8 pixels per byte, MSB first,
then unpacking the payload with the same documented bit order reproduces
the original pixel grid exactly. -/
theorem c8_pack_unpack_roundtrip (img : Img) (h1 : img.width = PRINT_WIDTH)
    (h2 : ∀ r ∈ img.rows, r.length = PRINT_WIDTH) :
    unpackRows (imgBytes img) = img.rows :=
  unpackRows_packedRows img.rows h2

/-- C8 witness: the spec's example, a 384×8 image whose top two rows are
all black, round-trips. -/
theorem c8_pack_unpack_roundtrip_witness :
    (⟨384, List.replicate 2 (List.replicate 384 true) ++
        List.replicate 6 (List.replicate 384 false)⟩ : Img).width = PRINT_WIDTH ∧
    (∀ r ∈ (⟨384, List.replicate 2 (List.replicate 384 true) ++
        List.replicate 6 (List.replicate 384 false)⟩ : Img).rows, r.length = PRINT_WIDTH) ∧
    unpackRows (imgBytes ⟨384, List.replicate 2 (List.replicate 384 true) ++
        List.replicate 6 (List.replicate 384 false)⟩) =
      (⟨384, List.replicate 2 (List.replicate 384 true) ++
        List.replicate 6 (List.replicate 384 false)⟩ : Img).rows := by
  refine ⟨rfl, by decide, ?_⟩
  exact c8_pack_unpack_roundtrip _ rfl (by decide)

lemma not_mem_replace1_nil (a : Char) : ∀ s : List Char, a ∉ replace1 a [] s := by
  intro s
  induction s with
  | nil => simp [replace1]
  | cons c rest ih =>
    by_cases h : c = a
    · simpa [replace1, h] using ih
    · simp only [replace1, if_neg h, List.mem_cons]
      rintro (rfl | hmem)
      · exact h rfl
      · exact ih hmem

lemma mem_of_mem_replace1 (a : Char) (r : List Char) (x : Char) :
    ∀ s : List Char, x ∈ replace1 a r s → x ∈ r ∨ x ∈ s := by
  intro s
  induction s with
  | nil => simp [replace1]
  | cons c rest ih =>
    by_cases h : c = a
    · simp only [replace1, if_pos h, List.mem_append, List.mem_cons]
      rintro (hr | hmem)
      · exact Or.inl hr
      · rcases ih hmem with hr | hs
        · exact Or.inl hr
        · exact Or.inr (Or.inr hs)
    · simp only [replace1, if_neg h, List.mem_cons]
      rintro (rfl | hmem)
      · exact Or.inr (Or.inl rfl)
      · rcases ih hmem with hr | hs
        · exact Or.inl hr
        · exact Or.inr (Or.inr hs)

lemma splitLines_ne_nil : ∀ s : List Char, splitLines s ≠ [] := by
  intro s
  cases s with
  | nil => simp [splitLines]
  | cons c rest =>
    by_cases h : c = '\n'
    · simp [splitLines, h]
    · rcases hsp : splitLines rest with _ | ⟨l0, ls0⟩ <;> simp [splitLines, h, hsp]

lemma mem_of_mem_splitLines : ∀ (s : List Char) (l : List Char),
    l ∈ splitLines s → ∀ c ∈ l, c ∈ s := by
  intro s
  induction s with
  | nil =>
    intro l hl c hc
    simp only [splitLines, List.mem_singleton] at hl
    subst hl
    simp at hc
  | cons ch rest ih =>
    intro l hl c hc
    by_cases h : ch = '\n'
    · rw [show splitLines (ch :: rest) = [] :: splitLines rest by simp [splitLines, h]] at hl
      rcases List.mem_cons.mp hl with rfl | hl2
      · simp at hc
      · exact List.mem_cons.mpr (Or.inr (ih l hl2 c hc))
    · rcases hsp : splitLines rest with _ | ⟨l0, ls0⟩
      · exact absurd hsp (splitLines_ne_nil rest)
      · rw [show splitLines (ch :: rest) = (ch :: l0) :: ls0 by
          simp [splitLines, h, hsp]] at hl
        rcases List.mem_cons.mp hl with rfl | hl2
        · rcases List.mem_cons.mp hc with rfl | hc2
          · exact List.mem_cons.mpr (Or.inl rfl)
          · exact List.mem_cons.mpr
              (Or.inr (ih l0 (hsp ▸ List.mem_cons.mpr (Or.inl rfl)) c hc2))
        · exact List.mem_cons.mpr
            (Or.inr (ih l (hsp ▸ List.mem_cons.mpr (Or.inr hl2)) c hc))

lemma mem_of_mem_pyStrip (l : List Char) (c : Char) (hc : c ∈ pyStrip l) : c ∈ l := by
  unfold pyStrip at hc
  rw [List.mem_reverse] at hc
  have hc2 := (List.dropWhile_sublist _).subset hc
  rw [List.mem_reverse] at hc2
  exact (List.dropWhile_sublist _).subset hc2

lemma textLines_chars_from_input (s : List Char) :
    ∀ l ∈ textLines s, ∀ c ∈ l, c ∈ s := by
  intro l hl c hc
  unfold textLines at hl
  have hl2 := List.mem_of_mem_filter hl
  rcases List.mem_map.mp hl2 with ⟨l0, hl0, rfl⟩
  exact mem_of_mem_splitLines s l0 hl0 c (mem_of_mem_pyStrip l0 c hc)

/-- C3 counterexample: on input `"#"` the markdown path's desymbolizing
erases the character, while `text_to_bitmap`'s pre-layout line list still
contains it — the two paths do not share the desymbolizing step. -/
theorem c3_counterexample_paths_differ :
    desymbolize ['#'] = [] ∧ textLines ['#'] = [['#']] := by
  decide

/-- C3 (amended): only the markdown path desymbolizes.  `desymbolize`
leaves no `#` or `*` in its output, while every character of
`text_to_bitmap`'s pre-layout lines is a character of the raw input
(so `#`/`*` pass through the text path untouched). -/
theorem c3_desymbolize_markdown_only (s : List Char) :
    ('#' ∉ desymbolize s) ∧ ('*' ∉ desymbolize s) ∧
      (∀ l ∈ textLines s, ∀ c ∈ l, c ∈ s) := by
  refine ⟨?_, ?_, textLines_chars_from_input s⟩
  · intro hmem
    unfold desymbolize at hmem
    rcases mem_of_mem_replace1 '*' [] '#' _ hmem with h | h
    · simp at h
    · exact not_mem_replace1_nil '#' _ h
  · exact not_mem_replace1_nil '*' _

/-- C3 amended-claim witness: a concrete input containing the escape, a
checkbox glyph and `#`/`*`. -/
theorem c3_desymbolize_markdown_only_witness :
    ('#' ∉ desymbolize ['#', '□', '\\', 'n', '*', 'a']) ∧
      ('*' ∉ desymbolize ['#', '□', '\\', 'n', '*', 'a']) ∧
      (∀ l ∈ textLines ['#', '□', '\\', 'n', '*', 'a'],
        ∀ c ∈ l, c ∈ ['#', '□', '\\', 'n', '*', 'a']) :=
  c3_desymbolize_markdown_only ['#', '□', '\\', 'n', '*', 'a']

lemma maxByLen_eq_none_iff (ls : List (List Char)) : maxByLen ls = none ↔ ls = [] := by
  cases ls <;> simp [maxByLen]

/-- C5: the text path fails with the empty-input error exactly when
splitting and trimming leaves no non-empty line; otherwise a font size is
produced and the pipeline proceeds. -/
theorem c5_empty_input_error (measureW : List Char → Int → Nat) (text : List Char) :
    (textToBitmapFontSize measureW text = Except.error RenderError.emptyInputError) ↔
      textLines text = [] := by
  unfold textToBitmapFontSize
  rcases h : maxByLen (textLines text) with _ | l
  · simp [(maxByLen_eq_none_iff (textLines text)).mp h]
  · have hne : textLines text ≠ [] := by
      intro he
      rw [he] at h
      simp [maxByLen] at h
    simp [hne]

/-- C5 witness: all-whitespace input fails; a one-word input succeeds. -/
theorem c5_empty_input_error_witness :
    ((textToBitmapFontSize (fun _ _ => 0) [' ', '\n', '\t'] =
        Except.error RenderError.emptyInputError) ↔
      textLines [' ', '\n', '\t'] = []) ∧
    ((textToBitmapFontSize (fun _ _ => 0) ['h', 'i'] =
        Except.error RenderError.emptyInputError) ↔
      textLines ['h', 'i'] = []) :=
  ⟨c5_empty_input_error (fun _ _ => 0) [' ', '\n', '\t'],
    c5_empty_input_error (fun _ _ => 0) ['h', 'i']⟩

/-- C10: width normalization never changes the number of rows, and the
`yL`/`yH` bytes of the command (positions 8 and 9) are computed from the
input image's height. -/
theorem c10_height_frame (img : Img) :
    (normalizeImg img).rows.length = img.rows.length ∧
    (printBitmapCommand img).getD 8 0 = img.rows.length % 256 ∧
    (printBitmapCommand img).getD 9 0 = img.rows.length / 256 % 256 := by
  refine ⟨normalizeImg_height img, ?_, ?_⟩ <;>
    simp [printBitmapCommand]

lemma fitLoop_no_fit (w : Int → Nat)
    (hnone : ∀ t : Int, 8 ≤ t → t ≤ 200 → ¬ (w t ≤ PRINT_WIDTH - 20)) :
    ∀ n : Nat, ∀ lo hi best : Int, (hi + 1 - lo).toNat ≤ n → 8 ≤ lo → hi ≤ 200 →
      fitLoop w lo hi best = best := by
  intro n
  induction n with
  | zero =>
    intro lo hi best hn h8 h200
    rw [fitLoop, if_neg (by omega)]
  | succ n ih =>
    intro lo hi best hn h8 h200
    rw [fitLoop]
    by_cases hle : lo ≤ hi
    · rw [if_pos hle, if_neg (hnone _ (by omega) (by omega))]
      exact ih lo ((lo + hi) / 2 - 1) best (by omega) h8 (by omega)
    · rw [if_neg hle]

lemma fitLoop_max_fit (w : Int → Nat) (K : Int)
    (hdc : ∀ s t : Int, 8 ≤ s → s ≤ t → t ≤ 200 →
      w t ≤ PRINT_WIDTH - 20 → w s ≤ PRINT_WIDTH - 20)
    (hK8 : 8 ≤ K) (hK200 : K ≤ 200) (hKfit : w K ≤ PRINT_WIDTH - 20)
    (hKmax : ∀ t : Int, K < t → t ≤ 200 → ¬ (w t ≤ PRINT_WIDTH - 20)) :
    ∀ n : Nat, ∀ lo hi best : Int, (hi + 1 - lo).toNat ≤ n → 8 ≤ lo → hi ≤ 200 →
      ((K < lo ∧ best = K) ∨ (lo ≤ K ∧ K ≤ hi)) →
      fitLoop w lo hi best = K := by
  intro n
  induction n with
  | zero =>
    intro lo hi best hn h8 h200 hinv
    rw [fitLoop, if_neg (by omega)]
    rcases hinv with ⟨_, rfl⟩ | ⟨hlK, hKhi⟩
    · rfl
    · omega
  | succ n ih =>
    intro lo hi best hn h8 h200 hinv
    rw [fitLoop]
    by_cases hle : lo ≤ hi
    · rw [if_pos hle]
      by_cases hfit : w ((lo + hi) / 2) ≤ PRINT_WIDTH - 20
      · rw [if_pos hfit]
        have hmidK : (lo + hi) / 2 ≤ K := by
          by_contra hcon
          exact hKmax _ (by omega) (by omega) hfit
        have hKin : lo ≤ K ∧ K ≤ hi := by
          rcases hinv with ⟨hKlo, _⟩ | h
          · omega
          · exact h
        apply ih ((lo + hi) / 2 + 1) hi ((lo + hi) / 2) (by omega) (by omega) h200
        by_cases hc : K < (lo + hi) / 2 + 1
        · exact Or.inl ⟨hc, by omega⟩
        · exact Or.inr ⟨by omega, hKin.2⟩
      · rw [if_neg hfit]
        have hKmid : K < (lo + hi) / 2 := by
          by_contra hcon
          exact hfit (hdc _ K (by omega) (by omega) hK200 hKfit)
        apply ih lo ((lo + hi) / 2 - 1) best (by omega) h8 (by omega)
        rcases hinv with ⟨hKlo, hbest⟩ | ⟨hlK, _⟩
        · exact Or.inl ⟨hKlo, hbest⟩
        · exact Or.inr ⟨hlK, by omega⟩
    · rw [if_neg hle]
      rcases hinv with ⟨_, rfl⟩ | ⟨hlK, hKhi⟩
      · rfl
      · omega

/-- C2 counterexample: when no size in `[8, 200]` fits (here the measured
width is 1000 > 364 at every size), the chosen font size is 16 — the
initialization default of `best_font_size` — not the claimed minimum 8. -/
theorem c2_counterexample_fallback_is_16 :
    (∀ s : Int, 8 ≤ s → s ≤ 200 →
      ¬ ((fun _ : Int => (1000 : Nat)) s ≤ PRINT_WIDTH - 20)) ∧
    bestFontSizeFor (fun _ => 1000) = 16 ∧
    bestFontSizeFor (fun _ => 1000) ≠ 8 := by
  have h16 : bestFontSizeFor (fun _ => 1000) = 16 := by
    rw [bestFontSizeFor]
    rw [fitLoop]; norm_num [PRINT_WIDTH]
    rw [fitLoop]; norm_num [PRINT_WIDTH]
    rw [fitLoop]; norm_num [PRINT_WIDTH]
    rw [fitLoop]; norm_num [PRINT_WIDTH]
    rw [fitLoop]; norm_num [PRINT_WIDTH]
    rw [fitLoop]; norm_num [PRINT_WIDTH]
    rw [fitLoop]; norm_num [PRINT_WIDTH]
    rw [fitLoop]; norm_num [PRINT_WIDTH]
  refine ⟨?_, h16, by rw [h16]; norm_num⟩
  intro s _ _
  norm_num [PRINT_WIDTH]

/-- C2 (amended): if the measured width is downward-closed in the size
(any size smaller than a fitting size also fits) then: when some size in
`[8, 200]` fits, the binary search returns the largest fitting size, and
its measured width fits; when no size fits, it returns 16, the
`best_font_size` initialization default. -/
theorem c2_binary_search_fit (w : Int → Nat)
    (hdc : ∀ s t : Int, 8 ≤ s → s ≤ t → t ≤ 200 →
      w t ≤ PRINT_WIDTH - 20 → w s ≤ PRINT_WIDTH - 20) :
    ((∃ s : Int, 8 ≤ s ∧ s ≤ 200 ∧ w s ≤ PRINT_WIDTH - 20) →
      w (bestFontSizeFor w) ≤ PRINT_WIDTH - 20 ∧
        8 ≤ bestFontSizeFor w ∧ bestFontSizeFor w ≤ 200 ∧
        (∀ t : Int, 8 ≤ t → t ≤ 200 → w t ≤ PRINT_WIDTH - 20 →
          t ≤ bestFontSizeFor w)) ∧
    ((∀ s : Int, 8 ≤ s → s ≤ 200 → ¬ (w s ≤ PRINT_WIDTH - 20)) →
      bestFontSizeFor w = 16) := by
  constructor
  · intro hex
    obtain ⟨K, ⟨hK8, hK200, hKfit⟩, hKglb⟩ :=
      Int.exists_greatest_of_bdd (P := fun z => 8 ≤ z ∧ z ≤ 200 ∧ w z ≤ PRINT_WIDTH - 20)
        ⟨200, fun z hz => hz.2.1⟩ hex
    have hKmax : ∀ t : Int, K < t → t ≤ 200 → ¬ (w t ≤ PRINT_WIDTH - 20) := by
      intro t hKt ht200 hfit
      have := hKglb t ⟨by omega, ht200, hfit⟩
      omega
    have hbest : bestFontSizeFor w = K := by
      rw [bestFontSizeFor]
      exact fitLoop_max_fit w K hdc hK8 hK200 hKfit hKmax 193 8 200 16 (by norm_num)
        (by norm_num) (by norm_num) (Or.inr ⟨hK8, hK200⟩)
    rw [hbest]
    exact ⟨hKfit, hK8, hK200, fun t ht8 ht200 htfit => hKglb t ⟨ht8, ht200, htfit⟩⟩
  · intro hnone
    rw [bestFontSizeFor]
    exact fitLoop_no_fit w hnone 193 8 200 16 (by norm_num) (by norm_num) (by norm_num)

/-- C2 witness: a measure that fits up to size 100 and not beyond; the
search returns 100, and with the everywhere-unfit measure it returns 16. -/
theorem c2_binary_search_fit_witness :
    (∀ s t : Int, 8 ≤ s → s ≤ t → t ≤ 200 →
      (fun u : Int => if u ≤ 100 then (0 : Nat) else 1000) t ≤ PRINT_WIDTH - 20 →
      (fun u : Int => if u ≤ 100 then (0 : Nat) else 1000) s ≤ PRINT_WIDTH - 20) ∧
    (((∃ s : Int, 8 ≤ s ∧ s ≤ 200 ∧
        (fun u : Int => if u ≤ 100 then (0 : Nat) else 1000) s ≤ PRINT_WIDTH - 20) →
      (fun u : Int => if u ≤ 100 then (0 : Nat) else 1000)
          (bestFontSizeFor (fun u => if u ≤ 100 then 0 else 1000)) ≤ PRINT_WIDTH - 20 ∧
        8 ≤ bestFontSizeFor (fun u => if u ≤ 100 then 0 else 1000) ∧
        bestFontSizeFor (fun u => if u ≤ 100 then 0 else 1000) ≤ 200 ∧
        (∀ t : Int, 8 ≤ t → t ≤ 200 →
          (fun u : Int => if u ≤ 100 then (0 : Nat) else 1000) t ≤ PRINT_WIDTH - 20 →
          t ≤ bestFontSizeFor (fun u => if u ≤ 100 then 0 else 1000))) ∧
      ((∀ s : Int, 8 ≤ s → s ≤ 200 →
        ¬ ((fun u : Int => if u ≤ 100 then (0 : Nat) else 1000) s ≤ PRINT_WIDTH - 20)) →
        bestFontSizeFor (fun u => if u ≤ 100 then 0 else 1000) = 16)) := by
  have hdc : ∀ s t : Int, 8 ≤ s → s ≤ t → t ≤ 200 →
      (fun u : Int => if u ≤ 100 then (0 : Nat) else 1000) t ≤ PRINT_WIDTH - 20 →
      (fun u : Int => if u ≤ 100 then (0 : Nat) else 1000) s ≤ PRINT_WIDTH - 20 := by
    intro s t hs hst ht hfit
    simp only at hfit ⊢
    by_cases h : t ≤ 100
    · rw [if_pos (by omega)]
      norm_num [PRINT_WIDTH]
    · rw [if_neg h] at hfit
      norm_num [PRINT_WIDTH] at hfit
  exact ⟨hdc, c2_binary_search_fit (fun u => if u ≤ 100 then 0 else 1000) hdc⟩

/-- C6: `markdown_to_bitmap` computes `getbbox` before inverting, on a
white-background canvas whose background pixels are nonzero, so the box
spans the whole canvas and the crop removes nothing: the output height
stays the full scratch height (here 4) and is not the tight content
bounding box height (here 2 − 1 = 1) the claim describes. -/
theorem c6_bbox_crop_is_identity :
    contentBBox drawn4 = some (1, 1, 2, 2) ∧
    getbbox drawn4 = some (0, 0, 4, 4) ∧
    (markdownPostProcess drawn4).rows.length = 4 ∧
    (markdownPostProcess drawn4).rows.length ≠ 2 - 1 := by
  decide

end TinyPrint
